import Mathlib

/-!
Shallow embedding of `acres/__init__.py`, a resource-loading helper that
wraps `importlib.resources` with a process-wide `ExitStack` (`EXIT_STACK`)
and a memoized materialization cache (`_cache_resource`, built with
`functools.cache`), plus the `Loader` wrapper class.

Modelling conventions:
* An *anchor* is either a module object or a fully-qualified module-name
  string (the two run-time shapes accepted by `Loader.__init__`); both
  resolve to the name of the namespace they denote.
* The process state (`PState`) carries the filesystem's temporary
  extractions, the memoized cache of `_cache_resource`, the global
  `EXIT_STACK`'s registered acquisitions, the stack of currently open
  `as_path` scopes, the number of extraction attempts performed so far,
  and the number of `atexit` registrations.
* `importlib.resources.files` resolves an anchor to a traversable handle
  and raises (here: returns an error) when the anchor does not name a
  known namespace.
* `importlib.resources.as_file` yields the real on-disk path directly for
  a resource of a plain (non-zipped) distribution, with a no-op cleanup;
  for a zipped distribution it extracts to a fresh temporary path whose
  cleanup deletes that path.  An extraction attempt may hit an I/O fault,
  specified by the environment's per-attempt fault oracle.
-/

/-- An anchor accepted by `Loader.__init__`: a module object or a
fully-qualified module name string. -/
inductive Anchor
  | mod (m : String)
  | name (s : String)
  deriving DecidableEq

/-- The namespace an anchor denotes. -/
def resolveNs : Anchor → String
  | .mod m => m
  | .name s => s

/-- Errors surfaced by the embedded operations: `resolution` models the
`ModuleNotFoundError` raised by `files` for an unknown anchor, `io` models
an I/O error during temporary extraction. -/
inductive AcresError
  | resolution (a : Anchor)
  | io
  deriving DecidableEq

/-- A top-level directory entry, as produced by `Traversable.iterdir`. -/
structure PkgEntry where
  name : String
  isDir : Bool
  deriving DecidableEq

/-- The static environment: which namespaces exist, which are zipped
(so that `as_file` must extract), the per-attempt I/O fault oracle for
extraction, and the directory listing of each handle. -/
structure Env where
  known : List String
  isZipped : String → Bool
  ioFault : Nat → Bool
  entriesOf : String → List String → List PkgEntry

/-- A concrete filesystem path: either the real on-disk location of a
resource of a plain distribution, or the `k`-th temporary extraction. -/
inductive FsPath
  | real (ns : String) (segs : List String)
  | tmp (k : Nat)
  deriving DecidableEq

/-- A `Traversable` handle as returned by `files`/`joinpath`: a namespace
root plus the path segments joined onto it. -/
structure Handle where
  ns : String
  segs : List String
  deriving DecidableEq

/-- Embeds `Traversable.joinpath(*segments)`. -/
def Handle.joinpath (h : Handle) (segments : List String) : Handle :=
  ⟨h.ns, h.segs ++ segments⟩

/-- Embeds `Traversable.iterdir()`. -/
def iterdir (env : Env) (h : Handle) : List PkgEntry :=
  env.entriesOf h.ns h.segs

/-- The cleanup registered by entering an `as_file` context manager:
either a no-op for a real on-disk path, or deletion of the `k`-th
temporary extraction. -/
inductive Acq
  | passthrough (ns : String) (segs : List String)
  | temp (k : Nat)
  deriving DecidableEq

/-- The process-wide mutable state. -/
structure PState where
  tmps : List Nat
  cache : List ((Anchor × List String) × FsPath)
  exitStack : List Acq
  scopes : List Acq
  attempts : Nat
  atexitRegistrations : Nat
  deriving DecidableEq

/-- Whether a path currently exists on disk.  Real on-disk resources of a
known, non-zipped namespace always exist (nothing in the program deletes
package data); a temporary extraction exists while it is recorded in the
state. -/
def pathExists (env : Env) (st : PState) : FsPath → Bool
  | .real ns _ => decide (ns ∈ env.known) && !env.isZipped ns
  | .tmp k => decide (k ∈ st.tmps)

/-- Embeds `importlib.resources.files(anchor)`: resolves the anchor to the root
handle of its namespace, raising for an unknown anchor. -/
def files (env : Env) (anchor : Anchor) : Except AcresError Handle :=
  if resolveNs anchor ∈ env.known then .ok ⟨resolveNs anchor, []⟩
  else .error (.resolution anchor)

/-- The context-manager value returned by `importlib.resources.as_file`.
Constructing it performs no filesystem work; materialization happens only
when the context is entered. -/
structure AsFileCM where
  target : Handle
  deriving DecidableEq

/-- Embeds `importlib.resources.as_file(traversable)`. -/
def as_file (h : Handle) : AsFileCM := ⟨h⟩

/-- Entering an `as_file` context: for a non-zipped namespace, pass the
real path through with a no-op cleanup and no filesystem work; for a
zipped namespace, perform extraction attempt `st.attempts`, which either
hits the environment's I/O fault or creates a fresh temporary path. -/
def cmEnter (env : Env) (cm : AsFileCM) (st : PState) :
    Except AcresError (FsPath × Acq) × PState :=
  if env.isZipped cm.target.ns then
    let k := st.attempts
    let st1 := { st with attempts := k + 1 }
    if env.ioFault k then (.error .io, st1)
    else (.ok (.tmp k, .temp k), { st1 with tmps := k :: st1.tmps })
  else
    (.ok (.real cm.target.ns cm.target.segs, .passthrough cm.target.ns cm.target.segs), st)

/-- Exiting an `as_file` context: a no-op for a passthrough, deletion of
the temporary path for an extraction. -/
def cmExit (acq : Acq) (st : PState) : PState :=
  match acq with
  | .passthrough _ _ => st
  | .temp k => { st with tmps := st.tmps.filter (fun j => j != k) }

/-- Lookup in the memo table of `functools.cache`. -/
def lookupCache (c : List ((Anchor × List String) × FsPath))
    (key : Anchor × List String) : Option FsPath :=
  match c with
  | [] => none
  | (k, p) :: rest => if k = key then some p else lookupCache rest key

/-- Embeds `EXIT_STACK.enter_context(cm)` after `cm.__enter__` has run: push the
acquisition's cleanup onto the global exit stack (most recent first). -/
def EXIT_STACK.enterContext (acq : Acq) (st : PState) : PState :=
  { st with exitStack := acq :: st.exitStack }

/-- Embeds `EXIT_STACK.close()`: run every registered cleanup, most recently
registered first (the exit stack stores acquisitions most recent first,
so a left fold unwinds them in reverse order of acquisition), leaving the
stack empty. -/
def EXIT_STACK.close (st : PState) : PState :=
  st.exitStack.foldl (fun s acq => cmExit acq s) { st with exitStack := [] }

/-- The process state after `import acres`: the module body creates the
empty global `EXIT_STACK` and performs the single
`atexit.register(EXIT_STACK.close)` call. -/
def initState : PState :=
  { tmps := [], cache := [], exitStack := [], scopes := [],
    attempts := 0, atexitRegistrations := 1 }

/-- Embeds `_cache_resource(anchor, segments)`: the `functools.cache`-memoized
function.  On a memo hit, return the stored path with no filesystem work.
On a miss, resolve the handle, enter `as_file` through the global
`EXIT_STACK`, and memoize the resulting path; nothing is stored when
resolution or extraction fails. -/
def _cache_resource (env : Env) (anchor : Anchor) (segments : List String)
    (st : PState) : Except AcresError FsPath × PState :=
  match lookupCache st.cache (anchor, segments) with
  | some p => (.ok p, st)
  | none =>
    match files env anchor with
    | .error e => (.error e, st)
    | .ok root =>
      match cmEnter env (as_file (root.joinpath segments)) st with
      | (.error e, st1) => (.error e, st1)
      | (.ok (p, acq), st1) =>
        (.ok p, { EXIT_STACK.enterContext acq st1 with
                    cache := ((anchor, segments), p) :: st1.cache })

/-- The `Loader` wrapper: stores the anchor as passed to the constructor
and the resolved root handle (`self.files`). -/
structure Loader where
  _anchor : Anchor
  files : Handle
  deriving DecidableEq

/-- Embeds `Loader.__init__`: resolves `files(anchor)`, so construction itself
fails with a resolution error for an unknown anchor. -/
def mkLoader (env : Env) (anchor : Anchor) : Except AcresError Loader :=
  match files env anchor with
  | .error e => .error e
  | .ok f => .ok { _anchor := anchor, files := f }

/-- Embeds `Loader.readable(*segments)`: joins the segments onto the resolved
root handle; no filesystem work, no state. -/
def Loader.readable (l : Loader) (segments : List String) : Handle :=
  l.files.joinpath segments

/-- Embeds `Loader.as_path(*segments)`: constructs and returns the `as_file`
context manager; no materialization happens until it is entered. -/
def Loader.as_path (l : Loader) (segments : List String) : AsFileCM :=
  as_file (l.files.joinpath segments)

/-- Embeds `Loader.cached(*segments)`: delegates to `_cache_resource`, keyed on
`self._anchor` and the segments, so the cache does not depend on the
per-instance `self.files` handle. -/
def Loader.cached (env : Env) (l : Loader) (segments : List String)
    (st : PState) : Except AcresError FsPath × PState :=
  _cache_resource env l._anchor segments st

/-- Python string comparison (code-point lexicographic), as used by
`sorted` on `str`. -/
def strLe (a b : String) : Prop := a.data ≤ b.data

instance : DecidableRel strLe :=
  fun a b => inferInstanceAs (Decidable (a.data ≤ b.data))

instance : IsTotal String strLe :=
  ⟨fun a b => IsTotal.total (r := (· ≤ · : List Char → List Char → Prop)) a.data b.data⟩

instance : IsTrans String strLe :=
  ⟨fun _ _ _ hab hbc => le_trans hab hbc⟩

/-- The filter of `Loader._doc`:
`p.name[0] not in ('.', '_') and p.name != 'tests'`. -/
def publicEntry (p : PkgEntry) : Bool :=
  p.name.front != '.' && p.name.front != '_' && p.name != "tests"

/-- The decoration of `Loader._doc`:
`fable = f'{p.name}/' if p.is_dir() else p.name`. -/
def decorateEntry (p : PkgEntry) : String :=
  if p.isDir then p.name ++ "/" else p.name

/-- The `top_level` list computed inside `Loader._doc`: the decorated
names of the public entries of `self.files.iterdir()`, sorted (Python's
`sorted` is a stable sort under code-point string comparison). -/
def top_level (env : Env) (l : Loader) : List String :=
  List.insertionSort strLe
    (((iterdir env l.files).filter publicEntry).map decorateEntry)

/-- Rendering of the anchor inside the docstring header. -/
def anchorStr : Anchor → String
  | .mod m => "<module " ++ m ++ ">"
  | .name s => s

/-- Embeds `Loader._doc`: the generated instance docstring. -/
def Loader._doc (env : Env) (l : Loader) : String :=
  String.intercalate "\x0a"
    (["Load package files relative to ``" ++ anchorStr l._anchor ++ "``.",
      "",
      "This package contains the following (top-level) files/directories:",
      ""] ++ (top_level env l).map (fun path => "* ``" ++ path ++ "``"))

/-- The statement `with loader.as_path(*segments) as p: body`: enter the
context manager, run the body, and run the cleanup on scope exit; the
cleanup runs whether the body returns normally or raises (Python `with`
semantics), so the body is simply a state transformer here. -/
def withAsPath (env : Env) (l : Loader) (segments : List String)
    (body : PState → PState) (st : PState) : Except AcresError FsPath × PState :=
  match cmEnter env (Loader.as_path l segments) st with
  | (.error e, st1) => (.error e, st1)
  | (.ok (p, acq), st1) => (.ok p, cmExit acq (body st1))

/-- The public operations a client can perform against the process state:
a `cached` call, a `readable` call, and entering/leaving an `as_path`
scope (well-nested, innermost first). -/
inductive Op
  | opCached (a : Anchor) (segs : List String)
  | opReadable (a : Anchor) (segs : List String)
  | opScopeEnter (a : Anchor) (segs : List String)
  | opScopeExit

/-- Effect of one operation on the process state. -/
def runOp (env : Env) (op : Op) (st : PState) : PState :=
  match op with
  | .opCached a segs => (_cache_resource env a segs st).2
  | .opReadable _ _ => st
  | .opScopeEnter a segs =>
    match files env a with
    | .error _ => st
    | .ok root =>
      match cmEnter env (as_file (root.joinpath segs)) st with
      | (.error _, st1) => st1
      | (.ok (_, acq), st1) => { st1 with scopes := acq :: st1.scopes }
  | .opScopeExit =>
    match st.scopes with
    | [] => st
    | acq :: rest => cmExit acq { st with scopes := rest }

/-- Effect of a sequence of operations. -/
def runOps (env : Env) (ops : List Op) (st : PState) : PState :=
  ops.foldl (fun s op => runOp env op s) st

/-- The cleanup an already-materialized path was registered with. -/
def acqOf : FsPath → Acq
  | .real ns segs => .passthrough ns segs
  | .tmp k => .temp k

/-- Reachable-state invariant tying the cache, the temporary extractions,
the open scopes and the global exit stack together. -/
structure WF (env : Env) (st : PState) : Prop where
  tmpsLt : ∀ k ∈ st.tmps, k < st.attempts
  scopesOk : ∀ k, Acq.temp k ∈ st.scopes →
    k < st.attempts ∧ ∀ e ∈ st.cache, e.2 ≠ FsPath.tmp k
  cacheTmps : ∀ e ∈ st.cache, ∀ k, e.2 = FsPath.tmp k → k ∈ st.tmps
  cacheReg : ∀ e ∈ st.cache, acqOf e.2 ∈ st.exitStack
  cacheReal : ∀ e ∈ st.cache, ∀ ns segs, e.2 = FsPath.real ns segs →
    ns ∈ env.known ∧ env.isZipped ns = false

/-- A thread's progress through one `_cache_resource(anchor, segments)`
call under the thread-interleaving semantics of `functools.cache`
(CPython `lru_cache` with `maxsize=None`): the wrapper looks the key up
in its memo dictionary, and on a miss calls the wrapped function and then
stores the result.  Dictionary reads and writes are individually atomic
under the GIL, but no lock is held across the wrapped-function call, so
another thread may run between the miss and the store. -/
inductive TPhase
  | start
  | extracted (p : FsPath)
  | done (p : FsPath)
  | failed
  deriving DecidableEq

/-- One atomic step of a thread running `_cache_resource env a segs`:
from `start`, perform the memo lookup and, on a miss, the wrapped
function body (resolve, enter `as_file` through `EXIT_STACK`); from
`extracted`, perform the memo store and return.  A completed thread
does nothing. -/
def threadStep (env : Env) (a : Anchor) (segs : List String)
    (t : TPhase) (st : PState) : TPhase × PState :=
  match t with
  | .start =>
    match lookupCache st.cache (a, segs) with
    | some p => (.done p, st)
    | none =>
      match files env a with
      | .error _ => (.failed, st)
      | .ok root =>
        match cmEnter env (as_file (root.joinpath segs)) st with
        | (.error _, st1) => (.failed, st1)
        | (.ok (p, acq), st1) => (.extracted p, EXIT_STACK.enterContext acq st1)
  | .extracted p => (.done p, { st with cache := ((a, segs), p) :: st.cache })
  | .done p => (.done p, st)
  | .failed => (.failed, st)

/-- Two threads, both running `_cache_resource env a segs`, advanced
according to a schedule: `false` steps thread 1, `true` steps thread 2. -/
def runSched (env : Env) (a : Anchor) (segs : List String)
    (sched : List Bool) (s : TPhase × TPhase × PState) :
    TPhase × TPhase × PState :=
  match sched with
  | [] => s
  | who :: rest =>
    let (t1, t2, st) := s
    if who then
      let (t2n, stn) := threadStep env a segs t2 st
      runSched env a segs rest (t1, t2n, stn)
    else
      let (t1n, stn) := threadStep env a segs t1 st
      runSched env a segs rest (t1n, t2, stn)

/-- A concrete environment with a single known, zipped namespace `pkg`
and no I/O faults. -/
def envZ : Env :=
  { known := ["pkg"], isZipped := fun _ => true, ioFault := fun _ => false,
    entriesOf := fun _ _ => [] }

/-- A concrete environment with a single known, plain (on-disk)
namespace `pkg` and no I/O faults. -/
def envP : Env :=
  { known := ["pkg"], isZipped := fun _ => false, ioFault := fun _ => false,
    entriesOf := fun _ _ => [] }

/-- A concrete environment with a single known, zipped namespace `pkg`
whose very first extraction attempt hits an I/O fault, after which
extraction succeeds. -/
def envF : Env :=
  { known := ["pkg"], isZipped := fun _ => true, ioFault := fun n => n == 0,
    entriesOf := fun _ _ => [] }

/-- A concrete environment for the docstring claims: a plain namespace
`pkg` whose root contains a mix of public, hidden, private and `tests`
entries. -/
def envD : Env :=
  { known := ["pkg"], isZipped := fun _ => false, ioFault := fun _ => false,
    entriesOf := fun ns segs =>
      if ns = "pkg" ∧ segs = [] then
        [⟨"tests", true⟩, ⟨"readme.md", false⟩, ⟨".hidden", false⟩,
         ⟨"_private", false⟩, ⟨"data", true⟩]
      else [] }

deriving instance DecidableEq for Except

theorem lookupCache_some_mem {c : List ((Anchor × List String) × FsPath)}
    {key : Anchor × List String} {p : FsPath}
    (h : lookupCache c key = some p) : (key, p) ∈ c := by
  induction c with
  | nil => simp [lookupCache] at h
  | cons hd tl ih =>
    obtain ⟨k, q⟩ := hd
    simp only [lookupCache] at h
    split at h
    · cases h
      simp_all
    · exact List.mem_cons_of_mem _ (ih h)

theorem _cache_resource_ok_lookup {env : Env} {a : Anchor} {segs : List String}
    {st st1 : PState} {p : FsPath}
    (h : _cache_resource env a segs st = (.ok p, st1)) :
    lookupCache st1.cache (a, segs) = some p := by
  unfold _cache_resource at h
  split at h
  · rename_i q hq
    cases h
    exact hq
  · split at h
    · cases h
    · split at h
      · cases h
      · rename_i hcm
        cases h
        simp [lookupCache]

/-- Claim C1: for equal resource identities `(anchor, segments)` — in
particular through two different `Loader` instances constructed from the
same anchor — `cached` returns the identical path value on every call,
and a call whose identity is already cached returns with the process
state completely unchanged: no filesystem work, no re-materialization. -/
theorem claim_C1 (env : Env) (l1 l2 : Loader) (segs : List String)
    (st st1 : PState) (p : FsPath)
    (hanchor : l1._anchor = l2._anchor)
    (h1 : Loader.cached env l1 segs st = (.ok p, st1)) :
    Loader.cached env l2 segs st1 = (.ok p, st1) := by
  unfold Loader.cached at h1 ⊢
  rw [← hanchor]
  have hl := _cache_resource_ok_lookup h1
  unfold _cache_resource
  rw [hl]

theorem claim_C1_witness :
    Loader.cached envZ ⟨.name "pkg", ⟨"pkg", []⟩⟩ ["data"]
      (Loader.cached envZ ⟨.name "pkg", ⟨"pkg", ["other"]⟩⟩ ["data"] initState).2
    = (.ok (.tmp 0), (Loader.cached envZ ⟨.name "pkg", ⟨"pkg", ["other"]⟩⟩ ["data"] initState).2) :=
  claim_C1 envZ ⟨.name "pkg", ⟨"pkg", ["other"]⟩⟩ ⟨.name "pkg", ⟨"pkg", []⟩⟩
    ["data"] initState _ (.tmp 0) rfl (by decide)

/-- Claim C6: an anchor that does not resolve to a known namespace makes
`Loader` construction fail with a resolution error (so `readable`,
`as_path` and `cached` cannot even be reached through the public API),
and a direct `cached`-style request for such an anchor also fails with
the resolution error, not a generic fault. -/
theorem claim_C6 (env : Env) (a : Anchor) (segs : List String) (st : PState)
    (hunk : resolveNs a ∉ env.known)
    (hmiss : lookupCache st.cache (a, segs) = none) :
    mkLoader env a = .error (.resolution a) ∧
    ∀ l : Loader, l._anchor = a →
      Loader.cached env l segs st = (.error (.resolution a), st) := by
  have hf : files env a = .error (.resolution a) := by
    simp [files, hunk]
  refine ⟨by simp [mkLoader, hf], ?_⟩
  intro l hl
  unfold Loader.cached _cache_resource
  rw [hl, hmiss, hf]

theorem claim_C6_witness :
    Loader.cached envZ ⟨.name "nope", ⟨"nope", []⟩⟩ ["d"] initState
      = (.error (.resolution (.name "nope")), initState) :=
  (claim_C6 envZ (.name "nope") ["d"] initState (by decide) (by decide)).2
    ⟨.name "nope", ⟨"nope", []⟩⟩ rfl

/-- Claim C7: when the extraction for a cold identity hits an I/O fault,
the error is surfaced and the process state is unchanged except for the
consumed extraction attempt — in particular the memo cache, the
temporary extractions and the exit stack are untouched, no negative
result is stored — and a subsequent call with the same identity retries
the extraction (and succeeds if the fault has cleared). -/
theorem claim_C7 (env : Env) (a : Anchor) (segs : List String) (st : PState)
    (hmiss : lookupCache st.cache (a, segs) = none)
    (hknown : resolveNs a ∈ env.known)
    (hzip : env.isZipped (resolveNs a) = true)
    (hfault : env.ioFault st.attempts = true) :
    _cache_resource env a segs st
      = (.error .io, { st with attempts := st.attempts + 1 }) ∧
    (env.ioFault (st.attempts + 1) = false →
      _cache_resource env a segs { st with attempts := st.attempts + 1 }
        = (.ok (.tmp (st.attempts + 1)),
           { st with attempts := st.attempts + 2,
                     tmps := (st.attempts + 1) :: st.tmps,
                     exitStack := Acq.temp (st.attempts + 1) :: st.exitStack,
                     cache := ((a, segs), FsPath.tmp (st.attempts + 1)) :: st.cache })) := by
  have hf : files env a = .ok ⟨resolveNs a, []⟩ := by
    simp [files, hknown]
  constructor
  · unfold _cache_resource
    rw [hmiss, hf]
    simp [cmEnter, as_file, Handle.joinpath, hzip, hfault]
  · intro hclear
    unfold _cache_resource
    have hmiss1 : lookupCache ({ st with attempts := st.attempts + 1 } : PState).cache (a, segs) = none := hmiss
    rw [hmiss1, hf]
    simp [cmEnter, as_file, Handle.joinpath, hzip, hclear, EXIT_STACK.enterContext]

theorem claim_C7_witness :
    _cache_resource envF (.name "pkg") ["data"] initState
      = (.error .io, { initState with attempts := 1 }) ∧
    _cache_resource envF (.name "pkg") ["data"] { initState with attempts := 1 }
      = (.ok (.tmp 1),
         { initState with attempts := 2, tmps := [1],
                          exitStack := [Acq.temp 1],
                          cache := [((Anchor.name "pkg", ["data"]), FsPath.tmp 1)] }) :=
  ⟨(claim_C7 envF (.name "pkg") ["data"] initState (by decide) (by decide)
      (by decide) (by decide)).1,
   (claim_C7 envF (.name "pkg") ["data"] initState (by decide) (by decide)
      (by decide) (by decide)).2 (by decide)⟩

/-- Claim C8: the `top_level` enumeration generated for a wrapper's
docstring is lexically sorted (Python string order, i.e. code-point
order), and a string belongs to it exactly when it is the decorated name
— directories suffixed with a trailing `/` — of a top-level entry under
the anchor whose name neither begins with `.` or `_` nor equals
`tests`. -/
theorem claim_C8 (env : Env) (l : Loader) :
    List.Sorted strLe (top_level env l) ∧
    ∀ s : String, s ∈ top_level env l ↔
      ∃ p ∈ iterdir env l.files,
        (p.name.front ≠ '.' ∧ p.name.front ≠ '_' ∧ p.name ≠ "tests") ∧
        s = (if p.isDir then p.name ++ "/" else p.name) := by
  constructor
  · exact List.sorted_insertionSort strLe _
  · intro s
    unfold top_level
    rw [List.Perm.mem_iff (List.perm_insertionSort _ _), List.mem_map]
    constructor
    · rintro ⟨p, hp, hs⟩
      rw [List.mem_filter] at hp
      refine ⟨p, hp.1, ?_, ?_⟩
      · have := hp.2
        simp only [publicEntry, Bool.and_eq_true, bne_iff_ne, ne_eq,
          decide_eq_true_eq] at this
        exact ⟨this.1.1, this.1.2, this.2⟩
      · simpa [decorateEntry] using hs.symm
    · rintro ⟨p, hp, hpub, hs⟩
      refine ⟨p, ?_, ?_⟩
      · rw [List.mem_filter]
        refine ⟨hp, ?_⟩
        simp only [publicEntry, Bool.and_eq_true, bne_iff_ne, ne_eq,
          decide_eq_true_eq]
        exact ⟨⟨hpub.1, hpub.2.1⟩, hpub.2.2⟩
      · simpa [decorateEntry] using hs.symm

theorem cmEnter_cases (env : Env) (cm : AsFileCM) (st : PState) :
    (env.isZipped cm.target.ns = true ∧ env.ioFault st.attempts = true ∧
      cmEnter env cm st = (.error .io, { st with attempts := st.attempts + 1 })) ∨
    (env.isZipped cm.target.ns = true ∧ env.ioFault st.attempts = false ∧
      cmEnter env cm st = (.ok (.tmp st.attempts, .temp st.attempts),
        { st with attempts := st.attempts + 1, tmps := st.attempts :: st.tmps })) ∨
    (env.isZipped cm.target.ns = false ∧
      cmEnter env cm st
        = (.ok (.real cm.target.ns cm.target.segs,
                .passthrough cm.target.ns cm.target.segs), st)) := by
  unfold cmEnter
  cases hz : env.isZipped cm.target.ns
  · right; right
    simp
  · cases hf : env.ioFault st.attempts
    · right; left
      simp [hf]
    · left
      simp [hf]

theorem _cache_resource_cases (env : Env) (a : Anchor) (segs : List String)
    (st : PState) :
    (∃ p, lookupCache st.cache (a, segs) = some p ∧
      _cache_resource env a segs st = (.ok p, st)) ∨
    (lookupCache st.cache (a, segs) = none ∧ resolveNs a ∉ env.known ∧
      _cache_resource env a segs st = (.error (.resolution a), st)) ∨
    (lookupCache st.cache (a, segs) = none ∧ resolveNs a ∈ env.known ∧
      env.isZipped (resolveNs a) = true ∧ env.ioFault st.attempts = true ∧
      _cache_resource env a segs st
        = (.error .io, { st with attempts := st.attempts + 1 })) ∨
    (lookupCache st.cache (a, segs) = none ∧ resolveNs a ∈ env.known ∧
      env.isZipped (resolveNs a) = true ∧ env.ioFault st.attempts = false ∧
      _cache_resource env a segs st
        = (.ok (.tmp st.attempts),
           { st with attempts := st.attempts + 1,
                     tmps := st.attempts :: st.tmps,
                     exitStack := Acq.temp st.attempts :: st.exitStack,
                     cache := ((a, segs), FsPath.tmp st.attempts) :: st.cache })) ∨
    (lookupCache st.cache (a, segs) = none ∧ resolveNs a ∈ env.known ∧
      env.isZipped (resolveNs a) = false ∧
      _cache_resource env a segs st
        = (.ok (.real (resolveNs a) segs),
           { st with exitStack := Acq.passthrough (resolveNs a) segs :: st.exitStack,
                     cache := ((a, segs), FsPath.real (resolveNs a) segs) :: st.cache })) := by
  unfold _cache_resource
  cases hl : lookupCache st.cache (a, segs) with
  | some p =>
    left
    exact ⟨p, rfl, rfl⟩
  | none =>
    right
    by_cases hk : resolveNs a ∈ env.known
    · right
      have hf : files env a = .ok ⟨resolveNs a, []⟩ := by simp [files, hk]
      rw [hf]
      cases hz : env.isZipped (resolveNs a)
      · right; right
        refine ⟨rfl, hk, rfl, ?_⟩
        simp [cmEnter, as_file, Handle.joinpath, hz, EXIT_STACK.enterContext]
      · cases hio : env.ioFault st.attempts
        · right; left
          refine ⟨rfl, hk, rfl, rfl, ?_⟩
          simp [cmEnter, as_file, Handle.joinpath, hz, hio, EXIT_STACK.enterContext]
        · left
          refine ⟨rfl, hk, rfl, rfl, ?_⟩
          simp [cmEnter, as_file, Handle.joinpath, hz, hio]
    · left
      have hf : files env a = .error (.resolution a) := by simp [files, hk]
      rw [hf]
      exact ⟨rfl, hk, rfl⟩

theorem wf_initState (env : Env) : WF env initState := by
  constructor <;> simp [initState]

theorem pathExists_of_cache_mem {env : Env} {st : PState}
    {e : (Anchor × List String) × FsPath} (hw : WF env st) (he : e ∈ st.cache) :
    pathExists env st e.2 = true := by
  cases hp : e.2 with
  | real ns segs =>
    obtain ⟨h1, h2⟩ := hw.cacheReal e he ns segs hp
    simp [pathExists, h1, h2]
  | tmp k =>
    have := hw.cacheTmps e he k hp
    simp [pathExists, this]

theorem wf_cache_resource {env : Env} {st : PState} (a : Anchor)
    (segs : List String) (hw : WF env st) :
    WF env (_cache_resource env a segs st).2 := by
  rcases _cache_resource_cases env a segs st with
    ⟨p, _, heq⟩ | ⟨_, _, heq⟩ | ⟨_, _, _, _, heq⟩ | ⟨_, hk, hz, _, heq⟩ | ⟨_, hk, hz, heq⟩
  · rw [heq]; exact hw
  · rw [heq]; exact hw
  · rw [heq]
    refine ⟨?_, ?_, hw.cacheTmps, hw.cacheReg, hw.cacheReal⟩
    · exact fun k hk => Nat.lt_succ_of_lt (hw.tmpsLt k hk)
    · exact fun k h => ⟨Nat.lt_succ_of_lt (hw.scopesOk k h).1, (hw.scopesOk k h).2⟩
  · rw [heq]
    refine ⟨?_, ?_, ?_, ?_, ?_⟩
    · intro k hkm
      rcases List.mem_cons.1 hkm with h | h
      · exact h ▸ Nat.lt_succ_self _
      · exact Nat.lt_succ_of_lt (hw.tmpsLt k h)
    · intro k h
      obtain ⟨h1, h2⟩ := hw.scopesOk k h
      refine ⟨Nat.lt_succ_of_lt h1, ?_⟩
      intro e he
      rcases List.mem_cons.1 he with h3 | h3
      · rw [h3]
        simp only [ne_eq, FsPath.tmp.injEq]
        omega
      · exact h2 e h3
    · intro e he k hek
      rcases List.mem_cons.1 he with h3 | h3
      · rw [h3] at hek
        simp only [FsPath.tmp.injEq] at hek
        exact List.mem_cons.2 (Or.inl hek.symm)
      · exact List.mem_cons_of_mem _ (hw.cacheTmps e h3 k hek)
    · intro e he
      rcases List.mem_cons.1 he with h3 | h3
      · rw [h3]
        exact List.mem_cons_self _ _
      · exact List.mem_cons_of_mem _ (hw.cacheReg e h3)
    · intro e he ns segs' hek
      rcases List.mem_cons.1 he with h3 | h3
      · rw [h3] at hek
        simp at hek
      · exact hw.cacheReal e h3 ns segs' hek
  · rw [heq]
    refine ⟨hw.tmpsLt, ?_, ?_, ?_, ?_⟩
    · intro k h
      obtain ⟨h1, h2⟩ := hw.scopesOk k h
      refine ⟨h1, ?_⟩
      intro e he
      rcases List.mem_cons.1 he with h3 | h3
      · rw [h3]
        simp
      · exact h2 e h3
    · intro e he k hek
      rcases List.mem_cons.1 he with h3 | h3
      · rw [h3] at hek
        simp at hek
      · exact hw.cacheTmps e h3 k hek
    · intro e he
      rcases List.mem_cons.1 he with h3 | h3
      · rw [h3]
        exact List.mem_cons_self _ _
      · exact List.mem_cons_of_mem _ (hw.cacheReg e h3)
    · intro e he ns segs' hek
      rcases List.mem_cons.1 he with h3 | h3
      · rw [h3] at hek
        simp only [FsPath.real.injEq] at hek
        exact ⟨hek.1 ▸ hk, hek.1 ▸ hz⟩
      · exact hw.cacheReal e h3 ns segs' hek

theorem wf_scopeEnter {env : Env} {st : PState} (a : Anchor)
    (segs : List String) (hw : WF env st) :
    WF env (runOp env (.opScopeEnter a segs) st) := by
  simp only [runOp]
  cases hf : files env a with
  | error e => exact hw
  | ok root =>
    dsimp only
    rcases cmEnter_cases env (as_file (root.joinpath segs)) st with
      ⟨_, _, heq⟩ | ⟨_, _, heq⟩ | ⟨_, heq⟩
    · rw [heq]
      dsimp only
      refine ⟨?_, ?_, hw.cacheTmps, hw.cacheReg, hw.cacheReal⟩
      · exact fun k hk => Nat.lt_succ_of_lt (hw.tmpsLt k hk)
      · exact fun k h => ⟨Nat.lt_succ_of_lt (hw.scopesOk k h).1, (hw.scopesOk k h).2⟩
    · rw [heq]
      dsimp only
      refine ⟨?_, ?_, ?_, hw.cacheReg, hw.cacheReal⟩
      · intro k hkm
        rcases List.mem_cons.1 hkm with h | h
        · exact h ▸ Nat.lt_succ_self _
        · exact Nat.lt_succ_of_lt (hw.tmpsLt k h)
      · intro k h
        rcases List.mem_cons.1 h with h1 | h1
        · have hk : k = st.attempts := by simpa using h1
          refine ⟨show k < st.attempts + 1 by omega, ?_⟩
          intro e he hke
          have hlt := hw.tmpsLt k (hw.cacheTmps e he k hke)
          omega
        · exact ⟨Nat.lt_succ_of_lt (hw.scopesOk k h1).1, (hw.scopesOk k h1).2⟩
      · exact fun e he k hek => List.mem_cons_of_mem _ (hw.cacheTmps e he k hek)
    · rw [heq]
      dsimp only
      refine ⟨hw.tmpsLt, ?_, hw.cacheTmps, hw.cacheReg, hw.cacheReal⟩
      intro k h
      rcases List.mem_cons.1 h with h1 | h1
      · simp at h1
      · exact hw.scopesOk k h1

theorem wf_scopeExit {env : Env} {st : PState} (hw : WF env st) :
    WF env (runOp env .opScopeExit st) := by
  simp only [runOp]
  cases hs : st.scopes with
  | nil => exact hw
  | cons acq rest =>
    cases acq with
    | passthrough ns sg =>
      simp only [cmExit]
      refine ⟨hw.tmpsLt, ?_, hw.cacheTmps, hw.cacheReg, hw.cacheReal⟩
      intro k h
      exact hw.scopesOk k (hs ▸ List.mem_cons_of_mem _ h)
    | temp k0 =>
      simp only [cmExit]
      have hscope : Acq.temp k0 ∈ st.scopes := hs ▸ List.mem_cons_self _ _
      obtain ⟨hk0, hnc⟩ := hw.scopesOk k0 hscope
      refine ⟨?_, ?_, ?_, hw.cacheReg, hw.cacheReal⟩
      · intro k hk
        exact hw.tmpsLt k (List.mem_filter.1 hk).1
      · intro k h
        exact hw.scopesOk k (hs ▸ List.mem_cons_of_mem _ h)
      · intro e he k hek
        have hkmem := hw.cacheTmps e he k hek
        have hkne : k ≠ k0 := by
          intro hkk
          exact hnc e he (hkk ▸ hek)
        exact List.mem_filter.2 ⟨hkmem, by simpa [bne_iff_ne] using hkne⟩

theorem wf_runOp {env : Env} {st : PState} (op : Op) (hw : WF env st) :
    WF env (runOp env op st) := by
  cases op with
  | opCached a segs => exact wf_cache_resource a segs hw
  | opReadable a segs => exact hw
  | opScopeEnter a segs => exact wf_scopeEnter a segs hw
  | opScopeExit => exact wf_scopeExit hw

theorem wf_runOps {env : Env} (ops : List Op) {st : PState} (hw : WF env st) :
    WF env (runOps env ops st) := by
  induction ops generalizing st with
  | nil => exact hw
  | cons op rest ih => exact ih (wf_runOp op hw)

theorem cache_mono_runOp {env : Env} {st : PState} (op : Op)
    {e : (Anchor × List String) × FsPath} (he : e ∈ st.cache) :
    e ∈ (runOp env op st).cache := by
  cases op with
  | opCached a segs =>
    simp only [runOp]
    rcases _cache_resource_cases env a segs st with
      ⟨p, _, heq⟩ | ⟨_, _, heq⟩ | ⟨_, _, _, _, heq⟩ | ⟨_, _, _, _, heq⟩ | ⟨_, _, _, heq⟩ <;>
      rw [heq]
    · exact he
    · exact he
    · exact he
    · exact List.mem_cons_of_mem _ he
    · exact List.mem_cons_of_mem _ he
  | opReadable a segs => exact he
  | opScopeEnter a segs =>
    simp only [runOp]
    cases hf : files env a with
    | error _ => exact he
    | ok root =>
      dsimp only
      rcases cmEnter_cases env (as_file (root.joinpath segs)) st with
        ⟨_, _, heq⟩ | ⟨_, _, heq⟩ | ⟨_, heq⟩ <;> rw [heq] <;> exact he
  | opScopeExit =>
    simp only [runOp]
    cases hs : st.scopes with
    | nil => exact he
    | cons acq rest =>
      cases acq <;> simp only [cmExit] <;> exact he

theorem cache_mono_runOps {env : Env} (ops : List Op) {st : PState}
    {e : (Anchor × List String) × FsPath} (he : e ∈ st.cache) :
    e ∈ (runOps env ops st).cache := by
  induction ops generalizing st with
  | nil => exact he
  | cons op rest ih => exact ih (cache_mono_runOp op he)

/-- Claim C4: after a successful `cached` call returns a path, that path
exists on disk, its acquisition is registered with the process-wide
`EXIT_STACK` (so its release is deferred to interpreter shutdown rather
than tied to any caller scope), and the path keeps existing across any
further sequence of API operations — `cached` calls, `readable` calls
and `as_path` scopes — performed before process exit. -/
theorem claim_C4 (env : Env) (l : Loader) (segs : List String)
    (st st1 : PState) (p : FsPath) (hw : WF env st)
    (h : Loader.cached env l segs st = (.ok p, st1)) :
    pathExists env st1 p = true ∧
    acqOf p ∈ st1.exitStack ∧
    ∀ ops : List Op, pathExists env (runOps env ops st1) p = true := by
  have hst1 : st1 = (_cache_resource env l._anchor segs st).2 := by
    unfold Loader.cached at h
    rw [h]
  have hw1 : WF env st1 := hst1 ▸ wf_cache_resource l._anchor segs hw
  have hmem : ((l._anchor, segs), p) ∈ st1.cache :=
    lookupCache_some_mem (_cache_resource_ok_lookup h)
  refine ⟨pathExists_of_cache_mem hw1 hmem, hw1.cacheReg _ hmem, ?_⟩
  intro ops
  exact pathExists_of_cache_mem (wf_runOps ops hw1) (cache_mono_runOps ops hmem)

theorem claim_C4_witness :
    pathExists envZ (Loader.cached envZ ⟨.name "pkg", ⟨"pkg", []⟩⟩ ["data"] initState).2
      (.tmp 0) = true ∧
    acqOf (.tmp 0) ∈ (Loader.cached envZ ⟨.name "pkg", ⟨"pkg", []⟩⟩ ["data"] initState).2.exitStack ∧
    pathExists envZ
      (runOps envZ [.opScopeEnter (.name "pkg") ["other"], .opScopeExit,
                    .opCached (.name "pkg") ["more"]]
        (Loader.cached envZ ⟨.name "pkg", ⟨"pkg", []⟩⟩ ["data"] initState).2)
      (.tmp 0) = true := by
  have h := claim_C4 envZ ⟨.name "pkg", ⟨"pkg", []⟩⟩ ["data"] initState
    (Loader.cached envZ ⟨.name "pkg", ⟨"pkg", []⟩⟩ ["data"] initState).2
    (.tmp 0) (wf_initState envZ) (by decide)
  exact ⟨h.1, h.2.1,
    h.2.2 [.opScopeEnter (.name "pkg") ["other"], .opScopeExit,
           .opCached (.name "pkg") ["more"]]⟩

theorem mkLoader_ok {env : Env} {a : Anchor} {l : Loader}
    (h : mkLoader env a = .ok l) :
    resolveNs a ∈ env.known ∧ l = ⟨a, ⟨resolveNs a, []⟩⟩ := by
  unfold mkLoader files at h
  by_cases hk : resolveNs a ∈ env.known
  · simp only [if_pos hk] at h
    cases h
    exact ⟨hk, rfl⟩
  · simp [if_neg hk] at h

/-- Claim C3: for a scope `with loader.as_path(*segments) as p: body`
(the body being an arbitrary sequence of API operations, and the cleanup
running on normal and exceptional body outcome alike), if the resource
lives in a zipped distribution the yielded path is a fresh temporary
extraction that no longer exists on disk once the scope exits; if the
resource is a plain on-disk file, that file's path is yielded directly,
the scope itself changes nothing beyond what the body does, and the file
still exists after the scope exits. -/
theorem claim_C3 (env : Env) (a : Anchor) (l : Loader) (segs : List String)
    (st : PState) (ops : List Op)
    (hl : mkLoader env a = .ok l) :
    (env.isZipped (resolveNs a) = true → env.ioFault st.attempts = false →
      withAsPath env l segs (runOps env ops) st
        = (.ok (.tmp st.attempts),
           cmExit (.temp st.attempts)
             (runOps env ops { st with attempts := st.attempts + 1,
                                       tmps := st.attempts :: st.tmps })) ∧
      pathExists env (withAsPath env l segs (runOps env ops) st).2
        (.tmp st.attempts) = false) ∧
    (env.isZipped (resolveNs a) = false →
      withAsPath env l segs (runOps env ops) st
        = (.ok (.real (resolveNs a) segs), runOps env ops st) ∧
      pathExists env (withAsPath env l segs (runOps env ops) st).2
        (.real (resolveNs a) segs) = true) := by
  obtain ⟨hk, hleq⟩ := mkLoader_ok hl
  subst hleq
  constructor
  · intro hz hf
    have heq : withAsPath env ⟨a, ⟨resolveNs a, []⟩⟩ segs (runOps env ops) st
        = (.ok (.tmp st.attempts),
           cmExit (.temp st.attempts)
             (runOps env ops { st with attempts := st.attempts + 1,
                                       tmps := st.attempts :: st.tmps })) := by
      unfold withAsPath Loader.as_path as_file
      simp [Handle.joinpath, cmEnter, hz, hf]
    refine ⟨heq, ?_⟩
    rw [heq]
    simp [pathExists, cmExit, List.mem_filter]
  · intro hz
    have heq : withAsPath env ⟨a, ⟨resolveNs a, []⟩⟩ segs (runOps env ops) st
        = (.ok (.real (resolveNs a) segs), runOps env ops st) := by
      unfold withAsPath Loader.as_path as_file
      simp [Handle.joinpath, cmEnter, hz, cmExit]
    refine ⟨heq, ?_⟩
    simp [pathExists, hk, hz]

theorem claim_C3_witness :
    (withAsPath envZ ⟨.name "pkg", ⟨"pkg", []⟩⟩ ["data"]
        (runOps envZ [.opCached (.name "pkg") ["data"]]) initState
      = (.ok (.tmp 0),
         cmExit (.temp 0)
           (runOps envZ [.opCached (.name "pkg") ["data"]]
             { initState with attempts := 1, tmps := [0] })) ∧
     pathExists envZ
       (withAsPath envZ ⟨.name "pkg", ⟨"pkg", []⟩⟩ ["data"]
         (runOps envZ [.opCached (.name "pkg") ["data"]]) initState).2
       (.tmp 0) = false) ∧
    (withAsPath envP ⟨.name "pkg", ⟨"pkg", []⟩⟩ ["data"]
        (runOps envP []) initState
      = (.ok (.real "pkg" ["data"]), runOps envP [] initState) ∧
     pathExists envP
       (withAsPath envP ⟨.name "pkg", ⟨"pkg", []⟩⟩ ["data"]
         (runOps envP []) initState).2
       (.real "pkg" ["data"]) = true) :=
  ⟨(claim_C3 envZ (.name "pkg") ⟨.name "pkg", ⟨"pkg", []⟩⟩ ["data"] initState
      [.opCached (.name "pkg") ["data"]] (by decide)).1 rfl rfl,
   (claim_C3 envP (.name "pkg") ⟨.name "pkg", ⟨"pkg", []⟩⟩ ["data"] initState
      [] (by decide)).2 rfl⟩

theorem cmExit_exitStack (acq : Acq) (s : PState) :
    (cmExit acq s).exitStack = s.exitStack := by
  cases acq <;> rfl

theorem cmExit_not_mem_tmps {k : Nat} (acq : Acq) {s : PState}
    (h : k ∉ s.tmps) : k ∉ (cmExit acq s).tmps := by
  cases acq with
  | passthrough ns segs => exact h
  | temp j =>
    simp only [cmExit, List.mem_filter]
    rintro ⟨hmem, -⟩
    exact h hmem

theorem foldl_cmExit_exitStack (l : List Acq) (s : PState) :
    (l.foldl (fun s acq => cmExit acq s) s).exitStack = s.exitStack := by
  induction l generalizing s with
  | nil => rfl
  | cons acq rest ih => rw [List.foldl_cons, ih, cmExit_exitStack]

theorem foldl_cmExit_not_mem {k : Nat} (l : List Acq) {s : PState}
    (h : k ∉ s.tmps) : k ∉ (l.foldl (fun s acq => cmExit acq s) s).tmps := by
  induction l generalizing s with
  | nil => exact h
  | cons acq rest ih => exact ih (cmExit_not_mem_tmps acq h)

theorem foldl_cmExit_temp_deleted {k : Nat} (l : List Acq) (s : PState)
    (h : Acq.temp k ∈ l) : k ∉ (l.foldl (fun s acq => cmExit acq s) s).tmps := by
  induction l generalizing s with
  | nil => simp at h
  | cons acq rest ih =>
    rcases List.mem_cons.1 h with h1 | h1
    · rw [List.foldl_cons, ← h1]
      refine foldl_cmExit_not_mem rest ?_
      simp [cmExit, List.mem_filter]
    · exact ih _ h1

theorem setExitStack_self {st : PState} (h : st.exitStack = []) :
    { st with exitStack := ([] : List Acq) } = st := by
  cases st
  simp_all

theorem atexit_runOp (env : Env) (op : Op) (st : PState) :
    (runOp env op st).atexitRegistrations = st.atexitRegistrations := by
  cases op with
  | opCached a segs =>
    simp only [runOp]
    rcases _cache_resource_cases env a segs st with
      ⟨p, _, heq⟩ | ⟨_, _, heq⟩ | ⟨_, _, _, _, heq⟩ | ⟨_, _, _, _, heq⟩ | ⟨_, _, _, heq⟩ <;>
      rw [heq]
  | opReadable a segs => rfl
  | opScopeEnter a segs =>
    simp only [runOp]
    cases hf : files env a with
    | error _ => rfl
    | ok root =>
      dsimp only
      rcases cmEnter_cases env (as_file (root.joinpath segs)) st with
        ⟨_, _, heq⟩ | ⟨_, _, heq⟩ | ⟨_, heq⟩ <;> rw [heq]
  | opScopeExit =>
    simp only [runOp]
    cases hs : st.scopes with
    | nil => rfl
    | cons acq rest => cases acq <;> rfl

theorem atexit_runOps (env : Env) (ops : List Op) (st : PState) :
    (runOps env ops st).atexitRegistrations = st.atexitRegistrations := by
  induction ops generalizing st with
  | nil => rfl
  | cons op rest ih =>
    show (runOps env rest (runOp env op st)).atexitRegistrations = _
    rw [ih, atexit_runOp]

/-- Claim C5: the `atexit` cleanup hook is registered exactly once, at
module-initialization time, and stays registered exactly once no matter
what sequence of API operations runs afterwards (constructing `Loader`
instances touches no process state at all); `EXIT_STACK.close` unwinds
the registered acquisitions in reverse order of acquisition (the stack
is most-recent-first, and closing equals a fold over the reverse of the
registration-chronological list), leaves the stack empty, deletes the
temporary path of every registered extraction, and closing a second time
is a no-op. -/
theorem claim_C5 :
    (∀ (env : Env) (ops : List Op),
      (runOps env ops initState).atexitRegistrations = 1) ∧
    (∀ st : PState, EXIT_STACK.close st
      = st.exitStack.reverse.foldr (fun acq s => cmExit acq s)
          { st with exitStack := [] }) ∧
    (∀ st : PState, (EXIT_STACK.close st).exitStack = []) ∧
    (∀ (st : PState) (k : Nat), Acq.temp k ∈ st.exitStack →
      k ∉ (EXIT_STACK.close st).tmps) ∧
    (∀ st : PState, EXIT_STACK.close (EXIT_STACK.close st) = EXIT_STACK.close st) := by
  have hstack : ∀ st : PState, (EXIT_STACK.close st).exitStack = [] := by
    intro st
    unfold EXIT_STACK.close
    rw [foldl_cmExit_exitStack]
  have hempty : ∀ s : PState, s.exitStack = [] → EXIT_STACK.close s = s := by
    intro s h
    unfold EXIT_STACK.close
    rw [h, List.foldl_nil]
    exact setExitStack_self h
  refine ⟨?_, ?_, hstack, ?_, ?_⟩
  · intro env ops
    rw [atexit_runOps]
    rfl
  · intro st
    unfold EXIT_STACK.close
    rw [List.foldr_reverse]
  · intro st k h
    unfold EXIT_STACK.close
    exact foldl_cmExit_temp_deleted _ _ h
  · intro st
    exact hempty _ (hstack st)

theorem claim_C5_witness :
    (runOps envZ [.opCached (.name "pkg") ["data"]] initState).atexitRegistrations = 1 ∧
    0 ∉ (EXIT_STACK.close
          (runOps envZ [.opCached (.name "pkg") ["data"]] initState)).tmps ∧
    (EXIT_STACK.close
      (runOps envZ [.opCached (.name "pkg") ["data"]] initState)).exitStack = [] :=
  ⟨claim_C5.1 envZ [.opCached (.name "pkg") ["data"]],
   claim_C5.2.2.2.1 (runOps envZ [.opCached (.name "pkg") ["data"]] initState) 0
     (by decide),
   claim_C5.2.2.1 (runOps envZ [.opCached (.name "pkg") ["data"]] initState)⟩

/-- Claim C9: `cached` keys the memo cache on the anchor value exactly as
passed to the `Loader` constructor together with the segments tuple: the
result never depends on the per-instance resolved root handle
(`self.files`), and two Loaders built from different anchor values that
name the same namespace (a module object versus its name string) keep
distinct cache entries, each materialized independently. -/
theorem claim_C9 :
    (∀ (env : Env) (l1 l2 : Loader) (segs : List String) (st : PState),
      l1._anchor = l2._anchor →
      Loader.cached env l1 segs st = Loader.cached env l2 segs st) ∧
    (Loader.cached envZ ⟨.mod "pkg", ⟨"pkg", []⟩⟩ ["data"] initState).1
      = .ok (.tmp 0) ∧
    (Loader.cached envZ ⟨.name "pkg", ⟨"pkg", []⟩⟩ ["data"]
      (Loader.cached envZ ⟨.mod "pkg", ⟨"pkg", []⟩⟩ ["data"] initState).2).1
      = .ok (.tmp 1) ∧
    ((Anchor.mod "pkg", ["data"]), FsPath.tmp 0)
      ∈ (Loader.cached envZ ⟨.name "pkg", ⟨"pkg", []⟩⟩ ["data"]
          (Loader.cached envZ ⟨.mod "pkg", ⟨"pkg", []⟩⟩ ["data"] initState).2).2.cache ∧
    ((Anchor.name "pkg", ["data"]), FsPath.tmp 1)
      ∈ (Loader.cached envZ ⟨.name "pkg", ⟨"pkg", []⟩⟩ ["data"]
          (Loader.cached envZ ⟨.mod "pkg", ⟨"pkg", []⟩⟩ ["data"] initState).2).2.cache ∧
    (Loader.cached envZ ⟨.name "pkg", ⟨"pkg", []⟩⟩ ["data"]
      (Loader.cached envZ ⟨.mod "pkg", ⟨"pkg", []⟩⟩ ["data"] initState).2).2.attempts = 2 := by
  refine ⟨?_, by decide, by decide, by decide, by decide, by decide⟩
  intro env l1 l2 segs st h
  unfold Loader.cached
  rw [h]

theorem claim_C9_witness :
    Loader.cached envZ ⟨.name "pkg", ⟨"pkg", []⟩⟩ ["data"] initState
      = Loader.cached envZ ⟨.name "pkg", ⟨"pkg", ["elsewhere"]⟩⟩ ["data"] initState :=
  claim_C9.1 envZ ⟨.name "pkg", ⟨"pkg", []⟩⟩ ⟨.name "pkg", ⟨"pkg", ["elsewhere"]⟩⟩
    ["data"] initState rfl

/-- Claim C10: `readable` only joins the segments onto the resolved root
handle and `as_path` only constructs the `as_file` context manager —
neither takes or changes any process state; even entering an `as_path`
context touches neither the memo cache nor the `EXIT_STACK`, and a full
`as_path` scope leaves both unchanged; among the API operations only a
`cached` call can change the cache or register on the `EXIT_STACK`. -/
theorem claim_C10 :
    (∀ (l : Loader) (segs : List String),
      Loader.readable l segs = l.files.joinpath segs) ∧
    (∀ (env : Env) (a : Anchor) (segs : List String) (st : PState),
      runOp env (.opReadable a segs) st = st) ∧
    (∀ (l : Loader) (segs : List String),
      Loader.as_path l segs = as_file (l.files.joinpath segs)) ∧
    (∀ (env : Env) (cm : AsFileCM) (st : PState),
      (cmEnter env cm st).2.cache = st.cache ∧
      (cmEnter env cm st).2.exitStack = st.exitStack) ∧
    (∀ (env : Env) (l : Loader) (segs : List String) (st : PState),
      (withAsPath env l segs id st).2.cache = st.cache ∧
      (withAsPath env l segs id st).2.exitStack = st.exitStack) ∧
    (∀ (env : Env) (op : Op) (st : PState),
      (∀ a segs, op ≠ .opCached a segs) →
      (runOp env op st).cache = st.cache ∧
      (runOp env op st).exitStack = st.exitStack) := by
  have hcm : ∀ (env : Env) (cm : AsFileCM) (st : PState),
      (cmEnter env cm st).2.cache = st.cache ∧
      (cmEnter env cm st).2.exitStack = st.exitStack := by
    intro env cm st
    rcases cmEnter_cases env cm st with
      ⟨_, _, heq⟩ | ⟨_, _, heq⟩ | ⟨_, heq⟩ <;> rw [heq] <;> exact ⟨rfl, rfl⟩
  refine ⟨fun l segs => rfl, fun env a segs st => rfl, fun l segs => rfl, hcm, ?_, ?_⟩
  · intro env l segs st
    unfold withAsPath
    rcases cmEnter_cases env (Loader.as_path l segs) st with
      ⟨_, _, heq⟩ | ⟨_, _, heq⟩ | ⟨_, heq⟩ <;> rw [heq] <;> exact ⟨rfl, rfl⟩
  · intro env op st hnc
    cases op with
    | opCached a segs => exact absurd rfl (hnc a segs)
    | opReadable a segs => exact ⟨rfl, rfl⟩
    | opScopeEnter a segs =>
      simp only [runOp]
      cases hf : files env a with
      | error _ => exact ⟨rfl, rfl⟩
      | ok root =>
        dsimp only
        rcases cmEnter_cases env (as_file (root.joinpath segs)) st with
          ⟨_, _, heq⟩ | ⟨_, _, heq⟩ | ⟨_, heq⟩ <;> rw [heq] <;> exact ⟨rfl, rfl⟩
    | opScopeExit =>
      simp only [runOp]
      cases hs : st.scopes with
      | nil => exact ⟨rfl, rfl⟩
      | cons acq rest => cases acq <;> exact ⟨rfl, rfl⟩

theorem claim_C10_witness :
    (runOp envZ (.opScopeEnter (.name "pkg") ["data"]) initState).cache
      = initState.cache ∧
    (runOp envZ (.opScopeEnter (.name "pkg") ["data"]) initState).exitStack
      = initState.exitStack :=
  claim_C10.2.2.2.2.2 envZ (.opScopeEnter (.name "pkg") ["data"]) initState
    (fun _ _ h => nomatch h)

/-- Claim C2, counterexample to the claim as stated: under the
interleaving semantics of `functools.cache` (no lock is held across the
wrapped-function call), two concurrent first-time `cached` requests for
the *same* identity can both miss the memo dictionary before either
stores, so the extraction-attempt counter reaches 2 for one identity —
two materializations — and the two callers even receive two different
temporary paths. -/
theorem claim_C2_counterexample :
    (runSched envZ (.name "pkg") ["data"] [false, true, false, true]
      (.start, .start, initState)).2.2.attempts = 2 ∧
    (runSched envZ (.name "pkg") ["data"] [false, true, false, true]
      (.start, .start, initState)).1 = .done (.tmp 0) ∧
    (runSched envZ (.name "pkg") ["data"] [false, true, false, true]
      (.start, .start, initState)).2.1 = .done (.tmp 1) := by
  decide

/-- Claim C2, amended: the memo cache of `_cache_resource` is a plain
check-then-write without per-key single-flight, so concurrent first-time
calls may each materialize (see the counterexample); when first-time
calls for an identity do not interleave — here: thread 1 runs its whole
call before thread 2 starts — at most one materialization occurs for the
identity, and both callers receive the single cached path. -/
theorem claim_C2 (env : Env) (a : Anchor) (segs : List String) (st : PState)
    (hmiss : lookupCache st.cache (a, segs) = none)
    (hk : resolveNs a ∈ env.known)
    (hz : env.isZipped (resolveNs a) = true)
    (hnf : env.ioFault st.attempts = false) :
    runSched env a segs [false, false, true, true] (.start, .start, st)
      = (.done (.tmp st.attempts), .done (.tmp st.attempts),
         { st with attempts := st.attempts + 1,
                   tmps := st.attempts :: st.tmps,
                   exitStack := Acq.temp st.attempts :: st.exitStack,
                   cache := ((a, segs), FsPath.tmp st.attempts) :: st.cache }) := by
  have hf : files env a = .ok ⟨resolveNs a, []⟩ := by
    simp [files, hk]
  simp [runSched, threadStep, hmiss, hf, cmEnter, as_file, Handle.joinpath,
    hz, hnf, EXIT_STACK.enterContext, lookupCache]

theorem claim_C2_witness :
    runSched envZ (.name "pkg") ["data"] [false, false, true, true]
      (.start, .start, initState)
      = (.done (.tmp 0), .done (.tmp 0),
         { initState with attempts := 1, tmps := [0],
                          exitStack := [Acq.temp 0],
                          cache := [((Anchor.name "pkg", ["data"]), FsPath.tmp 0)] }) :=
  claim_C2 envZ (.name "pkg") ["data"] initState rfl (by decide) rfl rfl
